import Mathlib

/-
  Shallow embedding of `src/compiler.ts` (travetto/compiler).

  The `Compiler` class is a bundle of static maps mutated by a handful of
  static methods.  We embed its mutable state as `CompilerState` and each
  method as a state-passing function.  External collaborators (filesystem
  reads, the `string-hash` function, `ts.transpileModule`, module execution
  via `_compile`, the original `Module._load`) are passed in as oracles in a
  `Ctx` record or as explicit arguments, so the embedded functions stay pure
  and executable.

  JavaScript `Map`s become association lists (`aset` updates in place keeping
  insertion position, like `Map.set`; `aerase` is `Map.delete`).  A statement
  that would throw a `TypeError` in JS (e.g. `this.files.get(fileName)!.version`
  when the entry is absent) is modelled by returning `none`.
-/

namespace Travetto

/-- Runtime values flowing through the module loader: ordinary module export
objects (identified by a numeric tag), the empty object literal, `null`
(the unload sentinel written into a retargetting handler), and the proxy
objects created by `moduleLoadHandler` (identified by the numeric identity
of the proxy allocation). -/
inductive Val where
  | obj (id : Nat)
  | emptyObj
  | null
  | proxy (id : Nat)
deriving DecidableEq, Repr

/-- Lookup in an association list, i.e. `Map.get`. -/
def alookup {α : Type} (l : List (String × α)) (k : String) : Option α :=
  match l.find? (fun kv => kv.1 = k) with
  | some kv => some kv.2
  | none => none

/-- Update-or-append, i.e. `Map.set`: an existing key keeps its position,
a new key is appended. -/
def aset {α : Type} (l : List (String × α)) (k : String) (v : α) : List (String × α) :=
  match l with
  | [] => [(k, v)]
  | kv :: t => if kv.1 = k then (k, v) :: t else kv :: aset t k v

/-- Removal, i.e. `Map.delete`. -/
def aerase {α : Type} (l : List (String × α)) (k : String) : List (String × α) :=
  l.filter (fun kv => kv.1 ≠ k)

/-- One entry of `Compiler.modules`: `{ module, handler }` where `module` is
the proxy object (its identity is `proxyId`) and `handler.target` is the
retargetting handler's mutable target slot. -/
structure ModEntry where
  proxyId : Nat
  target : Val
deriving DecidableEq, Repr

/-- The static mutable state of the `Compiler` class.  `files` maps a path to
its `{ version }` record; `contents` maps a js file name to compiled text;
`hashes` maps a path to its recorded content hash; `snaphost` and
`sourceMaps` are kept as key sets (their payloads are irrelevant to the
modelled behaviour); `requireCache` models the keys of `require.cache`;
`nextProxyId` is the allocator for proxy identities. -/
structure CompilerState where
  files : List (String × Nat)
  contents : List (String × String)
  hashes : List (String × Nat)
  snaphost : List String
  sourceMaps : List String
  modules : List (String × ModEntry)
  rootFiles : List String
  requireCache : List String
  nextProxyId : Nat
deriving DecidableEq, Repr

/-- Result of `ts.transpileModule`: output text plus diagnostics. -/
structure TranspileResult where
  outputText : String
  diagnostics : List String
deriving DecidableEq, Repr

/-- The environment and external oracles: `AppEnv.watch`, `AppEnv.prod`,
`Compiler.cwd`, `ts.sys.readFile`, `string-hash`, `Compiler.transpile`
(wrapping `ts.transpileModule`), and the `invalidWorkingSetFile` predicate
(a fixed list of regexes over the path). -/
structure Ctx where
  watch : Bool
  prod : Bool
  cwd : String
  readFile : String → String
  shash : String → Nat
  transp : String → String → TranspileResult
  invalid : String → Bool

/-- Char-list prefix test (structural, so that concrete runs reduce in the
kernel). -/
def leadsWith : List Char → List Char → Bool
  | _, [] => true
  | [], _ :: _ => false
  | c :: cs, d :: ds => c == d && leadsWith cs ds

/-- Char-list substring test (structural). -/
def hasSubList : List Char → List Char → Bool
  | [], needle => needle.isEmpty
  | c :: cs, needle => leadsWith (c :: cs) needle || hasSubList cs needle

/-- The source's `toJsName`: replace a trailing `.ts` by `.js` (the regex
`/\.ts$/`). -/
def toJsName (name : String) : String :=
  if leadsWith name.data.reverse ['s', 't', '.'] then
    String.mk (name.data.take (name.data.length - 3) ++ ['.', 'j', 's'])
  else name

/-- The source's `Compiler.emptyRequire` stub text. -/
def emptyRequire : String := "module.exports = \x7b\x7d"

/-- The source's `Compiler.libraryPath`. -/
def libraryPath : String := "node_modules"

/-- JS `String.prototype.includes`. -/
def includesSub (s sub : String) : Bool := hasSubList s.data sub.data

/-- The source's `Compiler.logErrors`: returns whether the diagnostics list is
non-empty (the console output is not modelled). -/
def logErrors (diagnostics : List String) : Bool := !diagnostics.isEmpty

/-- The source's `Compiler.handleLoadError` when called WITHOUT an exception
argument (as in `emitFile`): in development it logs and returns `true`
(recover with a stub); in production, with `e` undefined, it returns
`false` (no stub, no throw). -/
def handleLoadErrorNoExc (prod : Bool) : Bool := !prod

/-- The source's `Compiler.handleLoadError` when called WITH an exception
(as in `requireHandler` and `moduleLoadHandler`): in development it logs
and returns `some true`; in production it rethrows, modelled as `none`. -/
def handleLoadErrorExc (prod : Bool) : Option Bool :=
  if prod then none else some true

/-- The source's `Compiler.unload`: drop the cached snapshot, evict the
`require.cache` entry, drop the recorded hash, and if a module entry exists
set its retargetting handler's target to `null` (the entry itself stays). -/
def unload (st : CompilerState) (f : String) : CompilerState :=
  { st with
    snaphost := st.snaphost.filter (fun x => x ≠ f)
    requireCache := st.requireCache.filter (fun x => x ≠ f)
    hashes := aerase st.hashes f
    modules :=
      match alookup st.modules f with
      | some e => aset st.modules f ⟨e.proxyId, Val.null⟩
      | none => st.modules }

/-- The source's `Compiler.markForReload`: unload each named file; reload is
deliberately not automatic. -/
def markForReload (st : CompilerState) (files : List String) : CompilerState :=
  files.foldl unload st

/-- Result of one `emitFile` call: the boolean return value, whether
`transpile` was actually invoked, and the state afterwards. -/
structure EmitRes where
  ret : Bool
  transpiled : Bool
  st : CompilerState
deriving DecidableEq, Repr

/-- The source's `Compiler.emitFile`.  Read the file; in watch mode, if a hash
is recorded and matches the current content's hash, return `false` without
transpiling.  Otherwise transpile; when diagnostics are reported,
`handleLoadError` (no exception argument) decides whether to substitute the
`emptyRequire` stub.  Record the output, and in watch mode record the hash
and mark a previously-executed file (version > 0) for reload.  `none`
models the TypeError thrown by `this.files.get(fileName)!.version` when the
file is not registered. -/
def emitFile (ctx : Ctx) (st : CompilerState) (fileName : String) : Option EmitRes :=
  let content := ctx.readFile fileName
  let short :=
    ctx.watch &&
      (match alookup st.hashes fileName with
       | some h => ctx.shash content == h
       | none => false)
  if short then some ⟨false, false, st⟩
  else
    let res := ctx.transp content fileName
    let output :=
      if logErrors res.diagnostics && handleLoadErrorNoExc ctx.prod then emptyRequire
      else res.outputText
    let st1 := { st with contents := aset st.contents (toJsName fileName) output }
    if ctx.watch then
      let st2 := { st1 with hashes := aset st1.hashes fileName (ctx.shash content) }
      match alookup st2.files fileName with
      | none => none
      | some v =>
        let st3 := if v > 0 then markForReload st2 [fileName] else st2
        some ⟨true, true, st3⟩
    else some ⟨true, true, st1⟩

/-- Raw watcher event kinds handled by `watcherListener`. -/
inductive WEvent where
  | added
  | changed
  | removed
deriving DecidableEq, Repr

/-- The source's `Compiler.watcherListener`.  Discard events for invalid
working-set files.  `added` registers the file at version 1 and emits the
public `added` event if `emitFile` returned `true`.  `changed` on a tracked
file drops the snapshot, increments the version, and emits `changed` if
`emitFile` returned `true`; an untracked file is treated as `added`.
`removed` unloads and always emits `removed`.  The returned list is the
sequence of public events emitted (event name, file). -/
def watcherListener (ctx : Ctx) (st : CompilerState) (event : WEvent) (file : String) :
    Option (CompilerState × List (String × String)) :=
  if ctx.invalid file then some (st, [])
  else
    match event with
    | .added =>
      let st1 := { st with rootFiles := st.rootFiles ++ [file], files := aset st.files file 1 }
      match emitFile ctx st1 file with
      | none => none
      | some r => some (r.st, if r.ret then [("added", file)] else [])
    | .changed =>
      match alookup st.files file with
      | some v =>
        let st1 := { st with snaphost := st.snaphost.filter (fun x => x ≠ file),
                             files := aset st.files file (v + 1) }
        match emitFile ctx st1 file with
        | none => none
        | some r => some (r.st, if r.ret then [("changed", file)] else [])
      | none =>
        let st1 := { st with files := aset st.files file 1, rootFiles := st.rootFiles ++ [file] }
        match emitFile ctx st1 file with
        | none => none
        | some r => some (r.st, if r.ret then [("added", file)] else [])
    | .removed =>
      some (unload st file, [("removed", file)])

/-- Outcome of executing compiled text via `m._compile`. -/
inductive ExecOutcome where
  | ok (v : Val)
  | err (e : Nat)
deriving DecidableEq, Repr

deriving instance DecidableEq for Except

/-- Result of one `requireHandler` call: the value returned to the host (or
the exception that escaped), the state afterwards, how many times
`_compile` was invoked, and the public events emitted.  `Except.ok none`
models the `undefined` return on the stub-retry path (which has no
`return` statement). -/
structure ReqRes where
  result : Except Nat (Option Val)
  st : CompilerState
  execCount : Nat
  events : List (String × String)
deriving DecidableEq, Repr

/-- The source's `Compiler.requireHandler` (the `.ts` extension handler).
A path whose compiled content is absent is new: it is appended to the root
set, registered at version 0, and compiled via `emitFile` (registration of
the path with the per-top-level-directory watcher is an effect on the
external watcher object and is not part of the modelled state).  The
compiled text is executed through the `exec` oracle; on success a new
file fires `required-after`.  On failure, `handleLoadError` rethrows in
production; in development the content is replaced by the `emptyRequire`
stub and execution is retried exactly once with the stub. -/
def requireHandler (ctx : Ctx) (exec : String → String → ExecOutcome)
    (st : CompilerState) (tsf : String) : Option ReqRes :=
  let jsf := toJsName tsf
  let isNew := (alookup st.contents jsf).isNone
  let afterEmit :=
    if isNew then
      let st1 := { st with rootFiles := st.rootFiles ++ [tsf], files := aset st.files tsf 0 }
      (emitFile ctx st1 tsf).map (fun r => r.st)
    else some st
  match afterEmit with
  | none => none
  | some st1 =>
    match alookup st1.contents jsf with
    | none => none
    | some content =>
      match exec content jsf with
      | .ok v =>
        some ⟨.ok (some v), st1, 1, if isNew then [("required-after", tsf)] else []⟩
      | .err e =>
        match handleLoadErrorExc ctx.prod with
        | none => some ⟨.error e, st1, 1, []⟩
        | some _ =>
          let st2 := { st1 with contents := aset st1.contents jsf emptyRequire }
          match exec emptyRequire jsf with
          | .ok _ => some ⟨.ok none, st2, 2, []⟩
          | .err e2 => some ⟨.error e2, st2, 2, []⟩

/-- The path filter of `moduleLoadHandler`: inside the project root and
outside `node_modules`. -/
def inProject (ctx : Ctx) (p : String) : Bool :=
  includesSub p ctx.cwd && !includesSub p libraryPath

/-- The proxy-wrapping tail of `moduleLoadHandler`, once `mod` is known: in
watch mode, for project paths, the first load allocates a fresh proxy and
records a module entry; a later load returns the stored proxy object and
only retargets its handler. -/
def moduleLoadHandlerWrap (ctx : Ctx) (st : CompilerState) (p : String) (mod : Val) :
    Except Nat (Val × CompilerState) :=
  if ctx.watch && inProject ctx p then
    match alookup st.modules p with
    | none =>
      let pid := st.nextProxyId
      .ok (Val.proxy pid,
        { st with modules := aset st.modules p ⟨pid, mod⟩, nextProxyId := pid + 1 })
    | some ent =>
      .ok (Val.proxy ent.proxyId,
        { st with modules := aset st.modules p ⟨ent.proxyId, mod⟩ })
  else .ok (mod, st)

/-- The source's `Compiler.moduleLoadHandler` (the global `Module._load`
replacement).  `p` is the already-resolved filename and `loaded` the
outcome of the original loader.  On a load error, `handleLoadError`
rethrows in production and stubs `mod = \x7b\x7d` in development; the
module value is then wrapped by `moduleLoadHandlerWrap`. -/
def moduleLoadHandler (ctx : Ctx) (st : CompilerState) (p : String)
    (loaded : Except Nat Val) : Except Nat (Val × CompilerState) :=
  match loaded with
  | .error e =>
    match handleLoadErrorExc ctx.prod with
    | none => .error e
    | some _ => moduleLoadHandlerWrap ctx st p Val.emptyObj
  | .ok m => moduleLoadHandlerWrap ctx st p m

/-- Operations an indirection proxy can receive. -/
inductive ProxyOp where
  | read (key : String)
  | write (key : String)
  | invoke
  | enumerate
deriving DecidableEq, Repr

/-- Result of applying an operation through an indirection. -/
inductive OpResult where
  | empty
  | forwarded (t : Val) (op : ProxyOp)
deriving DecidableEq, Repr

/-- Modelled from the spec: the `RetargettingHandler` lives in `src/proxy.ts`,
which is not part of the provided sources (only its construction and the
writes to its `target` slot appear in `compiler.ts`).  Spec §4.4: the
indirection "forwards every operation (read, write, invocation,
membership/enumeration) to a mutable target slot", and once the target is
the explicit empty sentinel, "any pre-existing reference through P's
indirection yields a well-defined empty result, never a crash". -/
def proxyOp (target : Val) (op : ProxyOp) : OpResult :=
  match target with
  | Val.null => OpResult.empty
  | t => OpResult.forwarded t op

/-- One transformer descriptor as discovered by `resolveTransformers` /
`TransformerManager.init`: the exported item with its `phase`, optional
explicit `priority`, optional `name` (the exporting key is used when
absent), and the `transformer` payload (identified by a number).  The input
list to resolution is the flattening, in discovery order, of the double
loop over required transformer modules and their export keys. -/
structure TDesc where
  phase : String
  priority : Option Int
  name : Option String
  key : String
  transformer : Nat
deriving DecidableEq, Repr

/-- The priority of a descriptor after assignment (all priorities are `some`
once `assignPriorities` has run; `getD 0` is never reached on such lists). -/
def prio (d : TDesc) : Int := d.priority.getD 0

/-- The mutation pass of the discovery loop, with the counter `i` explicit:
`item.priority = item.priority === undefined ? ++i : item.priority` and
`item.name = item.name || key`. -/
def assignPrioritiesAux : List TDesc → Nat → List TDesc
  | [], _ => []
  | d :: ds, i =>
    match d.priority with
    | none =>
      { d with priority := some (Int.ofNat (i + 1)),
               name := some (d.name.getD d.key) } :: assignPrioritiesAux ds (i + 1)
    | some _ =>
      { d with name := some (d.name.getD d.key) } :: assignPrioritiesAux ds i

/-- The discovery loop of `resolveTransformers`, starting from `let i = 2`. -/
def assignPriorities (ds : List TDesc) : List TDesc :=
  assignPrioritiesAux ds 2

/-- The phase keys in first-push order (`Object.keys(transformers)` follows
insertion order of the string keys). -/
def phasesOf (ds : List TDesc) : List String :=
  ds.foldl (fun acc d => if acc.contains d.phase then acc else acc ++ [d.phase]) []

/-- The per-phase bucket, in discovery (push) order. -/
def phaseList (ds : List TDesc) (ph : String) : List TDesc :=
  ds.filter (fun d => d.phase = ph)

/-- Stable insertion of `d` after every element of priority ≤ `prio d`
(the behaviour of a stable comparator sort for the comparator
`(a, b) => a.priority - b.priority` on a list processed left to right). -/
def sinsert : List TDesc → TDesc → List TDesc
  | [], d => [d]
  | b :: t, d => if prio b ≤ prio d then b :: sinsert t d else d :: b :: t

/-- Stable sort by ascending priority, modelling ES2019
`Array.prototype.sort` with the comparator `(a, b) => a.priority - b.priority`
(the sort is required to be stable). -/
def ssort (ds : List TDesc) : List TDesc :=
  ds.foldl sinsert []

/-- The source's `Compiler.resolveTransformers` (and the identical
`TransformerManager.init`): assign priorities and names in discovery
order, bucket by phase, and sort each bucket stably by ascending priority,
keeping only the `transformer` payloads. -/
def resolveTransformers (ds : List TDesc) : List (String × List Nat) :=
  let as := assignPriorities ds
  (phasesOf as).map (fun ph => (ph, (ssort (phaseList as ph)).map (fun d => d.transformer)))

/-! Association-list lemmas shared by the claim proofs. -/

theorem alookup_aset_self {α : Type} (l : List (String × α)) (k : String) (v : α) :
    alookup (aset l k v) k = some v := by
  induction l with
  | nil => simp [aset, alookup]
  | cons kv t ih =>
    by_cases h : kv.1 = k
    · simp [aset, h, alookup, List.find?]
    · simp only [aset, h, if_false]
      simpa [alookup, List.find?, h] using ih

theorem alookup_aset_ne {α : Type} (l : List (String × α)) (k q : String) (v : α)
    (h : q ≠ k) : alookup (aset l k v) q = alookup l q := by
  induction l with
  | nil => simp [aset, alookup, List.find?, Ne.symm h]
  | cons kv t ih =>
    by_cases hk : kv.1 = k
    · subst hk
      simp [aset, alookup, List.find?, Ne.symm h]
    · by_cases hq : kv.1 = q
      · simp [aset, hk, alookup, List.find?, hq, h]
      · simp only [aset, hk, if_false]
        simpa [alookup, List.find?, hq] using ih

theorem alookup_aerase_self {α : Type} (l : List (String × α)) (k : String) :
    alookup (aerase l k) k = none := by
  induction l with
  | nil => simp [aerase, alookup]
  | cons kv t ih =>
    by_cases h : kv.1 = k
    · simpa [aerase, List.filter, h] using ih
    · simpa [aerase, List.filter, h, alookup, List.find?] using ih

theorem alookup_aerase_ne {α : Type} (l : List (String × α)) (k q : String)
    (h : q ≠ k) : alookup (aerase l k) q = alookup l q := by
  induction l with
  | nil => simp [aerase, alookup]
  | cons kv t ih =>
    by_cases hk : kv.1 = k
    · simpa [aerase, List.filter, hk, alookup, List.find?, Ne.symm h] using ih
    · by_cases hq : kv.1 = q
      · simp [aerase, List.filter, hk, alookup, List.find?, hq, h]
      · simpa [aerase, List.filter, hk, hq, alookup, List.find?] using ih

theorem alookup_isSome_aset {α : Type} (l : List (String × α)) (k q : String) (v : α)
    (h : (alookup l q).isSome) : (alookup (aset l k v) q).isSome := by
  by_cases hq : q = k
  · subst hq; simp [alookup_aset_self]
  · rw [alookup_aset_ne l k q v hq]; exact h

/-! Claim C1: hot-swap indirection identity in `moduleLoadHandler`. -/

/-- C1: for a path that already has a module entry, a later load through
`moduleLoadHandler` returns the stored proxy object (the same identity as
every earlier load) and the new state differs from the old one only in
that entry's handler target; a fresh indirection is allocated only when no
entry exists yet (the first watch-mode load). -/
theorem c1_hot_swap_identity (ctx : Ctx) (st : CompilerState) (p : String) (m : Val)
    (hw : ctx.watch = true) (hin : inProject ctx p = true) :
    (∀ ent, alookup st.modules p = some ent →
      moduleLoadHandler ctx st p (.ok m) =
        .ok (Val.proxy ent.proxyId,
          { st with modules := aset st.modules p ⟨ent.proxyId, m⟩ }) ∧
      alookup (aset st.modules p ⟨ent.proxyId, m⟩) p = some ⟨ent.proxyId, m⟩ ∧
      (∀ q, q ≠ p → alookup (aset st.modules p ⟨ent.proxyId, m⟩) q = alookup st.modules q)) ∧
    (alookup st.modules p = none →
      moduleLoadHandler ctx st p (.ok m) =
        .ok (Val.proxy st.nextProxyId,
          { st with modules := aset st.modules p ⟨st.nextProxyId, m⟩,
                    nextProxyId := st.nextProxyId + 1 })) := by
  constructor
  · intro ent hent
    refine ⟨?_, alookup_aset_self _ _ _, fun q hq => alookup_aset_ne _ _ _ _ hq⟩
    simp [moduleLoadHandler, moduleLoadHandlerWrap, hw, hin, hent]
  · intro hnone
    simp [moduleLoadHandler, moduleLoadHandlerWrap, hw, hin, hnone]

def ctxC1 : Ctx :=
  { watch := true, prod := false, cwd := "/app",
    readFile := fun _ => "", shash := fun s => s.length,
    transp := fun c _ => ⟨c, []⟩, invalid := fun _ => false }

def stC1 : CompilerState :=
  { files := [], contents := [], hashes := [], snaphost := [], sourceMaps := [],
    modules := [("/app/src/a.ts", ⟨5, Val.obj 1⟩)], rootFiles := [],
    requireCache := [], nextProxyId := 9 }

theorem c1_hot_swap_identity_witness :
    ctxC1.watch = true ∧ inProject ctxC1 "/app/src/a.ts" = true ∧
    alookup stC1.modules "/app/src/a.ts" = some ⟨5, Val.obj 1⟩ ∧
    moduleLoadHandler ctxC1 stC1 "/app/src/a.ts" (.ok (Val.obj 2)) =
      .ok (Val.proxy 5,
        { stC1 with modules := aset stC1.modules "/app/src/a.ts" ⟨5, Val.obj 2⟩ }) :=
  ⟨rfl, by decide, by decide,
    ((c1_hot_swap_identity ctxC1 stC1 "/app/src/a.ts" (Val.obj 2) rfl (by decide)).1
      ⟨5, Val.obj 1⟩ (by decide)).1⟩

/-! Claim C10: development-mode stubbing of loader errors. -/

/-- C10: when the original loader throws, `moduleLoadHandler` rethrows in
production; in development it proceeds with an empty object, which is
returned directly outside the watch-and-in-project case and is otherwise
wrapped in the hot-swap indirection (the entry's target being the empty
object). -/
theorem c10_load_error_policy (ctx : Ctx) (st : CompilerState) (p : String) (e : Nat) :
    (ctx.prod = true → moduleLoadHandler ctx st p (.error e) = .error e) ∧
    (ctx.prod = false →
      ∃ v st2, moduleLoadHandler ctx st p (.error e) = .ok (v, st2) ∧
        ((ctx.watch && inProject ctx p) = false → v = Val.emptyObj ∧ st2 = st) ∧
        ((ctx.watch && inProject ctx p) = true →
          ∃ pid, v = Val.proxy pid ∧ alookup st2.modules p = some ⟨pid, Val.emptyObj⟩)) := by
  constructor
  · intro hp
    simp [moduleLoadHandler, handleLoadErrorExc, hp]
  · intro hp
    simp only [moduleLoadHandler, handleLoadErrorExc, hp, if_false]
    by_cases hcase : (ctx.watch && inProject ctx p) = true
    · cases hent : alookup st.modules p with
      | none =>
        refine ⟨Val.proxy st.nextProxyId,
          { st with modules := aset st.modules p ⟨st.nextProxyId, Val.emptyObj⟩,
                    nextProxyId := st.nextProxyId + 1 }, ?_, ?_, ?_⟩
        · simp [moduleLoadHandlerWrap, hcase, hent]
        · intro hc; simp [hcase] at hc
        · intro _
          exact ⟨st.nextProxyId, rfl, by simpa using alookup_aset_self st.modules p _⟩
      | some ent =>
        refine ⟨Val.proxy ent.proxyId,
          { st with modules := aset st.modules p ⟨ent.proxyId, Val.emptyObj⟩ }, ?_, ?_, ?_⟩
        · simp [moduleLoadHandlerWrap, hcase, hent]
        · intro hc; simp [hcase] at hc
        · intro _
          exact ⟨ent.proxyId, rfl, by simpa using alookup_aset_self st.modules p _⟩
    · refine ⟨Val.emptyObj, st, ?_, fun _ => ⟨rfl, rfl⟩, fun hc => absurd hc hcase⟩
      simp [moduleLoadHandlerWrap, hcase]

def ctxC10 : Ctx :=
  { watch := false, prod := false, cwd := "/app",
    readFile := fun _ => "", shash := fun s => s.length,
    transp := fun c _ => ⟨c, []⟩, invalid := fun _ => false }

def stC10 : CompilerState :=
  { files := [], contents := [], hashes := [], snaphost := [], sourceMaps := [],
    modules := [], rootFiles := [], requireCache := [], nextProxyId := 0 }

theorem c10_load_error_policy_witness :
    ctxC10.prod = false ∧
    ∃ v st2, moduleLoadHandler ctxC10 stC10 "/app/src/a.ts" (.error 3) = .ok (v, st2) ∧
      ((ctxC10.watch && inProject ctxC10 "/app/src/a.ts") = false →
        v = Val.emptyObj ∧ st2 = stC10) ∧
      ((ctxC10.watch && inProject ctxC10 "/app/src/a.ts") = true →
        ∃ pid, v = Val.proxy pid ∧
          alookup st2.modules "/app/src/a.ts" = some ⟨pid, Val.emptyObj⟩) :=
  ⟨rfl, (c10_load_error_policy ctxC10 stC10 "/app/src/a.ts" 3).2 rfl⟩

/-! Helper facts about `emitFile`. -/

/-- The output text `emitFile` records: the stub when diagnostics are present
and `handleLoadError` (development) says to recover, the transpiler output
otherwise. -/
def emitOutput (ctx : Ctx) (fileName : String) : String :=
  let res := ctx.transp (ctx.readFile fileName) fileName
  if logErrors res.diagnostics && handleLoadErrorNoExc ctx.prod then emptyRequire
  else res.outputText

theorem unload_contents (st : CompilerState) (f : String) :
    (unload st f).contents = st.contents := rfl

theorem unload_files (st : CompilerState) (f : String) :
    (unload st f).files = st.files := rfl

/-- When the hash short-circuit does not fire and the file is registered
whenever watch mode needs it, `emitFile` returns `true`, transpiles, and
records `emitOutput`; it never touches the version map. -/
theorem emitFile_run (ctx : Ctx) (st : CompilerState) (f : String)
    (hsc : ctx.watch = true →
      (match alookup st.hashes f with
       | some h => ctx.shash (ctx.readFile f) == h
       | none => false) = false)
    (hreg : ctx.watch = true → ∃ v, alookup st.files f = some v) :
    ∃ r, emitFile ctx st f = some r ∧ r.ret = true ∧ r.transpiled = true ∧
      alookup r.st.contents (toJsName f) = some (emitOutput ctx f) ∧
      r.st.files = st.files := by
  cases hw : ctx.watch with
  | false =>
    refine ⟨⟨true, true,
      { st with contents := aset st.contents (toJsName f) (emitOutput ctx f) }⟩,
      ?_, rfl, rfl, ?_, rfl⟩
    · simp [emitFile, hw, emitOutput]
    · exact alookup_aset_self st.contents (toJsName f) (emitOutput ctx f)
  | true =>
    obtain ⟨v, hv⟩ := hreg hw
    have hs := hsc hw
    by_cases hv1 : v > 0
    · refine ⟨⟨true, true,
        unload { st with contents := aset st.contents (toJsName f) (emitOutput ctx f),
                         hashes := aset st.hashes f (ctx.shash (ctx.readFile f)) } f⟩,
        ?_, rfl, rfl, ?_, ?_⟩
      · simp [emitFile, hw, hs, hv, hv1, emitOutput, markForReload]
      · rw [unload_contents]
        exact alookup_aset_self st.contents (toJsName f) (emitOutput ctx f)
      · rw [unload_files]
    · refine ⟨⟨true, true,
        { st with contents := aset st.contents (toJsName f) (emitOutput ctx f),
                  hashes := aset st.hashes f (ctx.shash (ctx.readFile f)) }⟩,
        ?_, rfl, rfl, ?_, rfl⟩
      · simp [emitFile, hw, hs, hv, hv1, emitOutput]
      · exact alookup_aset_self st.contents (toJsName f) (emitOutput ctx f)

/-! Claim C2: hash short-circuit in `emitFile` (corrected). -/

/-- C2 (amended): in watch mode, while a hash is recorded for the file and the
current content hashes to it, `emitFile` returns `false` and does not
transpile; for a priming-stage file (version 0, no recorded hash yet) two
consecutive `emitFile` calls on unchanged content transpile exactly once,
the second short-circuiting; and a `changed` watch event on a tracked file
whose recorded hash matches emits no public event.  (The unamended claim
fails for files with version > 0: there `emitFile` drops the just-recorded
hash again via mark-for-reload, so the short-circuit never arms.) -/
theorem c2_hash_short_circuit (ctx : Ctx) (st : CompilerState) (f : String) :
    (∀ h, ctx.watch = true → alookup st.hashes f = some h →
      ctx.shash (ctx.readFile f) = h →
      emitFile ctx st f = some ⟨false, false, st⟩) ∧
    (ctx.watch = true → alookup st.files f = some 0 → alookup st.hashes f = none →
      ∃ r, emitFile ctx st f = some r ∧ r.transpiled = true ∧
        emitFile ctx r.st f = some ⟨false, false, r.st⟩) ∧
    (∀ v h, ctx.watch = true → ctx.invalid f = false →
      alookup st.files f = some v → alookup st.hashes f = some h →
      ctx.shash (ctx.readFile f) = h →
      ∃ st2, watcherListener ctx st .changed f = some (st2, [])) := by
  refine ⟨?_, ?_, ?_⟩
  · intro h hw hh heq
    simp [emitFile, hw, hh, heq]
  · intro hw hv hh
    refine ⟨⟨true, true,
      { st with contents := aset st.contents (toJsName f) (emitOutput ctx f),
                hashes := aset st.hashes f (ctx.shash (ctx.readFile f)) }⟩, ?_, rfl, ?_⟩
    · simp [emitFile, hw, hh, hv, emitOutput]
    · have hh2 : alookup (aset st.hashes f (ctx.shash (ctx.readFile f))) f =
          some (ctx.shash (ctx.readFile f)) := alookup_aset_self _ _ _
      simp [emitFile, hw, hh2]
  · intro v h hw hinv hv hh heq
    have hh2 : alookup st.hashes f = some h := hh
    refine ⟨{ st with snaphost := st.snaphost.filter (fun x => x ≠ f),
                      files := aset st.files f (v + 1) }, ?_⟩
    simp [watcherListener, hinv, hv, emitFile, hw, hh2, heq]

def ctxC2 : Ctx :=
  { watch := true, prod := false, cwd := "/app",
    readFile := fun _ => "x", shash := fun s => s.length,
    transp := fun c _ => ⟨c, []⟩, invalid := fun _ => false }

def stC2 : CompilerState :=
  { files := [("a.ts", 1)], contents := [], hashes := [], snaphost := [],
    sourceMaps := [], modules := [], rootFiles := [], requireCache := [],
    nextProxyId := 0 }

def stC2a : CompilerState :=
  { files := [("a.ts", 1)], contents := [("a.js", "x")], hashes := [], snaphost := [],
    sourceMaps := [], modules := [], rootFiles := [], requireCache := [],
    nextProxyId := 0 }

def stC2b : CompilerState :=
  { files := [("a.ts", 2)], contents := [("a.js", "x")], hashes := [], snaphost := [],
    sourceMaps := [], modules := [], rootFiles := [], requireCache := [],
    nextProxyId := 0 }

/-- C2 counterexample: a watch-mode file at version 1 whose content never
changes.  The first `emitFile` transpiles and, because version > 0,
mark-for-reload immediately deletes the recorded hash; the second call on
the identical content transpiles AGAIN and returns `true` (so translation
runs twice across the two calls, not once), and a subsequent `changed`
watch event on the still-unchanged content emits the public `changed`
event even though the content hash equals that of the last compile. -/
theorem c2_hash_short_circuit_counterexample :
    emitFile ctxC2 stC2 "a.ts" = some ⟨true, true, stC2a⟩ ∧
    emitFile ctxC2 stC2a "a.ts" = some ⟨true, true, stC2a⟩ ∧
    watcherListener ctxC2 stC2a .changed "a.ts" = some (stC2b, [("changed", "a.ts")]) := by
  decide

theorem c2_hash_short_circuit_witness :
    ctxC2.watch = true ∧ alookup stC2a.files "b.ts" = none ∧
    (∀ h, alookup ({ stC2a with files := [("b.ts", 0)] } : CompilerState).hashes "b.ts" =
      some h → False) ∧
    ∃ r, emitFile ctxC2 { stC2a with files := [("b.ts", 0)] } "b.ts" = some r ∧
      r.transpiled = true ∧
      emitFile ctxC2 r.st "b.ts" = some ⟨false, false, r.st⟩ :=
  ⟨rfl, by decide, by decide,
    (c2_hash_short_circuit ctxC2 { stC2a with files := [("b.ts", 0)] } "b.ts").2.1
      rfl (by decide) (by decide)⟩

/-! Claim C3: translation diagnostics policy (corrected). -/

/-- C3 (amended): when transpiling yields diagnostics, in development mode the
recorded compiled output for the file is the `emptyRequire` stub and
`emitFile` completes normally; in production mode no stub is substituted,
but the failure is NOT propagated as fatal either: `handleLoadError`,
called without an exception argument, returns `false`, so `emitFile` also
completes normally and records the transpiler's output text as-is. -/
theorem c3_translation_error_policy (ctx : Ctx) (st : CompilerState) (f : String)
    (hsc : ctx.watch = true →
      (match alookup st.hashes f with
       | some h => ctx.shash (ctx.readFile f) == h
       | none => false) = false)
    (hreg : ctx.watch = true → ∃ v, alookup st.files f = some v)
    (hd : logErrors (ctx.transp (ctx.readFile f) f).diagnostics = true) :
    (ctx.prod = false →
      ∃ r, emitFile ctx st f = some r ∧ r.ret = true ∧
        alookup r.st.contents (toJsName f) = some emptyRequire) ∧
    (ctx.prod = true →
      ∃ r, emitFile ctx st f = some r ∧ r.ret = true ∧
        alookup r.st.contents (toJsName f) =
          some (ctx.transp (ctx.readFile f) f).outputText) := by
  obtain ⟨r, hr, hret, htr, hcont, hfiles⟩ := emitFile_run ctx st f hsc hreg
  constructor
  · intro hp
    refine ⟨r, hr, hret, ?_⟩
    rw [hcont]
    congr 1
    simp [emitOutput, hd, handleLoadErrorNoExc, hp]
  · intro hp
    refine ⟨r, hr, hret, ?_⟩
    rw [hcont]
    congr 1
    simp [emitOutput, hd, handleLoadErrorNoExc, hp]

def ctxC3 : Ctx :=
  { watch := false, prod := true, cwd := "/app",
    readFile := fun _ => "x", shash := fun s => s.length,
    transp := fun _ _ => ⟨"BAD", ["boom"]⟩, invalid := fun _ => false }

def stC3 : CompilerState :=
  { files := [], contents := [], hashes := [], snaphost := [], sourceMaps := [],
    modules := [], rootFiles := [], requireCache := [], nextProxyId := 0 }

/-- C3 counterexample: in production mode, a file whose transpilation reports
a diagnostic does NOT abort: `emitFile` completes normally, returns
`true`, and records the transpiler output (not a stub, but also not a
fatal propagation — `handleLoadError` without an exception argument
returns `false` in production). -/
theorem c3_translation_error_policy_counterexample :
    emitFile ctxC3 stC3 "a.ts" =
      some ⟨true, true, { stC3 with contents := [("a.js", "BAD")] }⟩ := by
  decide

def ctxC3d : Ctx :=
  { watch := false, prod := false, cwd := "/app",
    readFile := fun _ => "x", shash := fun s => s.length,
    transp := fun _ _ => ⟨"BAD", ["boom"]⟩, invalid := fun _ => false }

theorem c3_translation_error_policy_witness :
    logErrors (ctxC3d.transp (ctxC3d.readFile "a.ts") "a.ts").diagnostics = true ∧
    ctxC3d.prod = false ∧
    ∃ r, emitFile ctxC3d stC3 "a.ts" = some r ∧ r.ret = true ∧
      alookup r.st.contents (toJsName "a.ts") = some emptyRequire :=
  ⟨by decide, rfl,
    (c3_translation_error_policy ctxC3d stC3 "a.ts"
      (fun hw => by simp [ctxC3d] at hw) (fun hw => by simp [ctxC3d] at hw)
      (by decide)).1 rfl⟩

/-! Claim C4: mark-for-reload exactly for previously-executed files. -/

/-- C4: in watch mode, when `emitFile` actually emits (no hash
short-circuit), the file is unloaded — hash dropped, snapshot dropped,
`require.cache` entry evicted, indirection target set to `null` — exactly
when its registered version is greater than 0; a priming compile
(version 0) records the hash and leaves snapshot, cache and module entry
untouched. -/
theorem c4_reload_iff_version_pos (ctx : Ctx) (st : CompilerState) (f : String) (v : Nat)
    (hw : ctx.watch = true)
    (hv : alookup st.files f = some v)
    (hsc : (match alookup st.hashes f with
            | some h => ctx.shash (ctx.readFile f) == h
            | none => false) = false) :
    ∃ r, emitFile ctx st f = some r ∧ r.ret = true ∧
      (v > 0 →
        alookup r.st.hashes f = none ∧
        f ∉ r.st.snaphost ∧
        f ∉ r.st.requireCache ∧
        r.st.contents = aset st.contents (toJsName f) (emitOutput ctx f) ∧
        (∀ e, alookup st.modules f = some e →
          alookup r.st.modules f = some ⟨e.proxyId, Val.null⟩)) ∧
      (v = 0 →
        alookup r.st.hashes f = some (ctx.shash (ctx.readFile f)) ∧
        r.st.snaphost = st.snaphost ∧
        r.st.requireCache = st.requireCache ∧
        r.st.modules = st.modules) := by
  by_cases hv1 : v > 0
  · refine ⟨⟨true, true,
      unload { st with contents := aset st.contents (toJsName f) (emitOutput ctx f),
                       hashes := aset st.hashes f (ctx.shash (ctx.readFile f)) } f⟩,
      ?_, rfl, ?_, ?_⟩
    · simp [emitFile, hw, hsc, hv, hv1, emitOutput, markForReload]
    · intro _
      refine ⟨alookup_aerase_self _ _, ?_, ?_, rfl, ?_⟩
      · simp [unload, List.mem_filter]
      · simp [unload, List.mem_filter]
      · intro e he
        simp only [unload, he]
        exact alookup_aset_self _ _ _
    · intro h0
      exact absurd hv1 (by omega)
  · have h0 : v = 0 := by omega
    refine ⟨⟨true, true,
      { st with contents := aset st.contents (toJsName f) (emitOutput ctx f),
                hashes := aset st.hashes f (ctx.shash (ctx.readFile f)) }⟩,
      ?_, rfl, ?_, ?_⟩
    · simp [emitFile, hw, hsc, hv, hv1, emitOutput]
    · intro hcontra
      exact absurd hcontra hv1
    · intro _
      exact ⟨alookup_aset_self _ _ _, rfl, rfl, rfl⟩

def ctxC4 : Ctx :=
  { watch := true, prod := false, cwd := "/app",
    readFile := fun _ => "x", shash := fun s => s.length,
    transp := fun c _ => ⟨c, []⟩, invalid := fun _ => false }

def stC4 : CompilerState :=
  { files := [("a.ts", 1)], contents := [], hashes := [], snaphost := ["a.ts"],
    sourceMaps := [], modules := [("a.ts", ⟨7, Val.obj 1⟩)], rootFiles := [],
    requireCache := ["a.ts"], nextProxyId := 8 }

theorem c4_reload_iff_version_pos_witness :
    ctxC4.watch = true ∧ alookup stC4.files "a.ts" = some 1 ∧
    ∃ r, emitFile ctxC4 stC4 "a.ts" = some r ∧ r.ret = true ∧
      (1 > 0 →
        alookup r.st.hashes "a.ts" = none ∧
        "a.ts" ∉ r.st.snaphost ∧
        "a.ts" ∉ r.st.requireCache ∧
        r.st.contents = aset stC4.contents (toJsName "a.ts") (emitOutput ctxC4 "a.ts") ∧
        (∀ e, alookup stC4.modules "a.ts" = some e →
          alookup r.st.modules "a.ts" = some ⟨e.proxyId, Val.null⟩)) ∧
      (1 = 0 →
        alookup r.st.hashes "a.ts" = some (ctxC4.shash (ctxC4.readFile "a.ts")) ∧
        r.st.snaphost = stC4.snaphost ∧
        r.st.requireCache = stC4.requireCache ∧
        r.st.modules = stC4.modules) :=
  ⟨rfl, by decide, c4_reload_iff_version_pos ctxC4 stC4 "a.ts" 1 rfl (by decide) (by decide)⟩

/-! Preservation lemmas used by the versioning and frame claims. -/

/-- Closed-form restatement of `emitFile`, convenient for case analysis. -/
theorem emitFile_eq (ctx : Ctx) (st : CompilerState) (f : String) :
    emitFile ctx st f =
      if (ctx.watch &&
          (match alookup st.hashes f with
           | some h => ctx.shash (ctx.readFile f) == h
           | none => false)) = true
      then some ⟨false, false, st⟩
      else if ctx.watch = true then
        match alookup st.files f with
        | none => none
        | some v =>
          some ⟨true, true,
            if v > 0 then
              unload { st with
                contents := aset st.contents (toJsName f) (emitOutput ctx f),
                hashes := aset st.hashes f (ctx.shash (ctx.readFile f)) } f
            else
              { st with
                contents := aset st.contents (toJsName f) (emitOutput ctx f),
                hashes := aset st.hashes f (ctx.shash (ctx.readFile f)) }⟩
      else some ⟨true, true,
        { st with contents := aset st.contents (toJsName f) (emitOutput ctx f) }⟩ := by
  show emitFile ctx st f = _
  unfold emitFile emitOutput markForReload
  by_cases hs : (ctx.watch &&
      (match alookup st.hashes f with
       | some h => ctx.shash (ctx.readFile f) == h
       | none => false)) = true
  · rw [if_pos hs, if_pos hs]
  · rw [if_neg hs, if_neg hs]
    by_cases hw : ctx.watch = true
    · rw [hw]
      simp only [if_pos rfl]
      rfl
    · have hw2 : ctx.watch = false := by
        cases hcw : ctx.watch
        · rfl
        · exact absurd hcw hw
      rw [hw2]
      simp only [Bool.false_eq_true, if_false]

theorem emitFile_files_eq (ctx : Ctx) (st : CompilerState) (f : String) (r : EmitRes)
    (h : emitFile ctx st f = some r) : r.st.files = st.files := by
  rw [emitFile_eq] at h
  split at h
  · cases h; rfl
  · split at h
    · split at h
      · cases h
      · cases h
        split
        · exact unload_files _ _
        · rfl
    · cases h; rfl

theorem emitFile_contents_persist (ctx : Ctx) (st : CompilerState) (f : String)
    (r : EmitRes) (h : emitFile ctx st f = some r) (k : String)
    (hk : (alookup st.contents k).isSome) : (alookup r.st.contents k).isSome := by
  rw [emitFile_eq] at h
  split at h
  · cases h; exact hk
  · split at h
    · split at h
      · cases h
      · cases h
        split
        · rw [unload_contents]
          exact alookup_isSome_aset _ _ _ _ hk
        · exact alookup_isSome_aset _ _ _ _ hk
    · cases h
      exact alookup_isSome_aset _ _ _ _ hk

/-- Closed form of `requireHandler` when the compiled content is already
recorded (the file is not new). -/
theorem requireHandler_not_new (ctx : Ctx) (exec : String → String → ExecOutcome)
    (st : CompilerState) (tsf : String) (c : String)
    (hc : alookup st.contents (toJsName tsf) = some c) :
    requireHandler ctx exec st tsf =
      match exec c (toJsName tsf) with
      | .ok v => some ⟨.ok (some v), st, 1, []⟩
      | .err e =>
        match handleLoadErrorExc ctx.prod with
        | none => some ⟨.error e, st, 1, []⟩
        | some _ =>
          match exec emptyRequire (toJsName tsf) with
          | .ok _ => some ⟨.ok none,
              { st with contents := aset st.contents (toJsName tsf) emptyRequire }, 2, []⟩
          | .err e2 => some ⟨.error e2,
              { st with contents := aset st.contents (toJsName tsf) emptyRequire }, 2, []⟩ := by
  unfold requireHandler
  simp only [hc, Option.isNone_some, Bool.false_eq_true, if_false]

/-! Claim C5: version monotonicity (corrected). -/

/-- C5 (amended): a `changed` watch event on a tracked file increments its
version by exactly one (strict increase); no watch event ever writes
version 0 (so 0 never recurs once the version is nonzero); and a load
through `requireHandler` for a path whose compiled content is already
recorded never touches the version map at all.  (The unamended claim fails
because an `added` watch event for an already-tracked path unconditionally
resets its version to 1, which can decrease it.) -/
theorem c5_version_monotonic (ctx : Ctx) (st : CompilerState) (f : String)
    (hinv : ctx.invalid f = false) :
    (∀ v st2 evs, alookup st.files f = some v →
      watcherListener ctx st .changed f = some (st2, evs) →
      alookup st2.files f = some (v + 1)) ∧
    (∀ ev st2 evs v w, watcherListener ctx st ev f = some (st2, evs) →
      alookup st.files f = some v → v ≠ 0 →
      alookup st2.files f = some w → w ≠ 0) ∧
    (∀ exec res, (alookup st.contents (toJsName f)).isSome →
      requireHandler ctx exec st f = some res → res.st.files = st.files) := by
  refine ⟨?_, ?_, ?_⟩
  · intro v st2 evs hv hw
    unfold watcherListener at hw
    rw [hinv] at hw
    simp only [Bool.false_eq_true, if_false, hv] at hw
    split at hw
    · exact Option.noConfusion hw
    · rename_i r heq
      simp only [Option.some.injEq, Prod.mk.injEq] at hw
      obtain ⟨h2, _⟩ := hw
      rw [← h2, emitFile_files_eq _ _ _ _ heq]
      exact alookup_aset_self _ _ _
  · intro ev st2 evs v w hw hv hvnz hw2
    cases ev with
    | added =>
      unfold watcherListener at hw
      rw [hinv] at hw
      simp only [Bool.false_eq_true, if_false] at hw
      split at hw
      · exact Option.noConfusion hw
      · rename_i r heq
        simp only [Option.some.injEq, Prod.mk.injEq] at hw
        obtain ⟨h2, _⟩ := hw
        rw [← h2, emitFile_files_eq _ _ _ _ heq, alookup_aset_self] at hw2
        cases hw2
        exact one_ne_zero
    | changed =>
      unfold watcherListener at hw
      rw [hinv] at hw
      simp only [Bool.false_eq_true, if_false, hv] at hw
      split at hw
      · exact Option.noConfusion hw
      · rename_i r heq
        simp only [Option.some.injEq, Prod.mk.injEq] at hw
        obtain ⟨h2, _⟩ := hw
        rw [← h2, emitFile_files_eq _ _ _ _ heq, alookup_aset_self] at hw2
        cases hw2
        exact Nat.succ_ne_zero v
    | removed =>
      unfold watcherListener at hw
      rw [hinv] at hw
      simp only [Bool.false_eq_true, if_false, Option.some.injEq, Prod.mk.injEq] at hw
      obtain ⟨h2, _⟩ := hw
      rw [← h2, unload_files, hv] at hw2
      cases hw2
      exact hvnz
  · intro exec res hsome hreq
    obtain ⟨c, hc⟩ := Option.isSome_iff_exists.mp hsome
    rw [requireHandler_not_new ctx exec st f c hc] at hreq
    split at hreq
    · simp only [Option.some.injEq] at hreq
      rw [← hreq]
    · split at hreq
      · simp only [Option.some.injEq] at hreq
        rw [← hreq]
      · split at hreq
        · simp only [Option.some.injEq] at hreq
          rw [← hreq]
        · simp only [Option.some.injEq] at hreq
          rw [← hreq]

def ctxC5 : Ctx :=
  { watch := true, prod := false, cwd := "/app",
    readFile := fun _ => "x", shash := fun s => s.length,
    transp := fun c _ => ⟨c, []⟩, invalid := fun _ => false }

def stC5 : CompilerState :=
  { files := [("a.ts", 5)], contents := [], hashes := [], snaphost := [],
    sourceMaps := [], modules := [], rootFiles := [], requireCache := [],
    nextProxyId := 0 }

def stC5x : CompilerState :=
  { files := [("a.ts", 1)], contents := [("a.js", "x")], hashes := [], snaphost := [],
    sourceMaps := [], modules := [], rootFiles := ["a.ts"], requireCache := [],
    nextProxyId := 0 }

/-- C5 counterexample: an `added` watch event for a path already tracked at
version 5 unconditionally resets its version to 1 — the version decreases
across a sequence of watch events, refuting "never decreases". -/
theorem c5_version_monotonic_counterexample :
    alookup stC5.files "a.ts" = some 5 ∧
    watcherListener ctxC5 stC5 .added "a.ts" = some (stC5x, [("added", "a.ts")]) ∧
    alookup stC5x.files "a.ts" = some 1 := by
  decide

theorem c5_version_monotonic_witness :
    ctxC5.invalid "a.ts" = false ∧ alookup stC5x.files "a.ts" = some 1 ∧
    watcherListener ctxC5 stC5x .changed "a.ts" =
      some ({ stC5x with files := [("a.ts", 2)] }, [("changed", "a.ts")]) ∧
    alookup ({ stC5x with files := [("a.ts", 2)] } : CompilerState).files "a.ts" =
      some 2 :=
  ⟨rfl, by decide, by decide,
    (c5_version_monotonic ctxC5 stC5x "a.ts" rfl).1 1
      { stC5x with files := [("a.ts", 2)] } [("changed", "a.ts")]
      (by decide) (by decide)⟩

/-! Claim C6: removed-file safety via the empty sentinel. -/

/-- C6: processing a `removed` event for a path with a module entry unloads
it and emits `removed`; the entry survives with the SAME proxy identity,
only its handler target is set to the `null` sentinel, and (per the
spec-modelled `RetargettingHandler`) every operation through the
indirection then yields the well-defined empty result — `proxyOp` is total,
so no operation can crash. -/
theorem c6_removed_file_safety (ctx : Ctx) (st : CompilerState) (P : String)
    (pid : Nat) (tgt : Val)
    (hinv : ctx.invalid P = false)
    (hent : alookup st.modules P = some ⟨pid, tgt⟩) :
    watcherListener ctx st .removed P = some (unload st P, [("removed", P)]) ∧
    alookup (unload st P).modules P = some ⟨pid, Val.null⟩ ∧
    (∀ op, proxyOp Val.null op = OpResult.empty) := by
  refine ⟨?_, ?_, fun op => rfl⟩
  · unfold watcherListener
    rw [hinv]
    simp only [Bool.false_eq_true, if_false]
  · simp only [unload, hent]
    exact alookup_aset_self _ _ _

def ctxC6 : Ctx :=
  { watch := true, prod := false, cwd := "/app",
    readFile := fun _ => "x", shash := fun s => s.length,
    transp := fun c _ => ⟨c, []⟩, invalid := fun _ => false }

def stC6 : CompilerState :=
  { files := [("a.ts", 2)], contents := [("a.js", "x")], hashes := [("a.ts", 1)],
    snaphost := ["a.ts"], sourceMaps := [], modules := [("a.ts", ⟨3, Val.obj 9⟩)],
    rootFiles := ["a.ts"], requireCache := ["a.ts"], nextProxyId := 4 }

theorem c6_removed_file_safety_witness :
    ctxC6.invalid "a.ts" = false ∧
    alookup stC6.modules "a.ts" = some ⟨3, Val.obj 9⟩ ∧
    watcherListener ctxC6 stC6 .removed "a.ts" =
      some (unload stC6 "a.ts", [("removed", "a.ts")]) ∧
    alookup (unload stC6 "a.ts").modules "a.ts" = some ⟨3, Val.null⟩ ∧
    (∀ op, proxyOp Val.null op = OpResult.empty) :=
  ⟨rfl, by decide,
    (c6_removed_file_safety ctxC6 stC6 "a.ts" 3 (Val.obj 9) rfl (by decide)).1,
    (c6_removed_file_safety ctxC6 stC6 "a.ts" 3 (Val.obj 9) rfl (by decide)).2.1,
    (c6_removed_file_safety ctxC6 stC6 "a.ts" 3 (Val.obj 9) rfl (by decide)).2.2⟩

/-! Claim C7: stub-or-fatal policy on execution failure. -/

/-- C7: when executing a file's compiled text throws, `requireHandler`
rethrows in production (one execution, state untouched); in development it
replaces the recorded content with the `emptyRequire` stub and retries
execution exactly once with the stub (total execution count 2, the retry
outcome — success or a second throw — is final); no call path ever
executes more than twice. -/
theorem c7_exec_retry_policy (ctx : Ctx) (exec : String → String → ExecOutcome)
    (st : CompilerState) (tsf c : String) (e : Nat)
    (hc : alookup st.contents (toJsName tsf) = some c)
    (hfail : exec c (toJsName tsf) = .err e) :
    (ctx.prod = true → requireHandler ctx exec st tsf = some ⟨.error e, st, 1, []⟩) ∧
    (ctx.prod = false →
      ∃ res, requireHandler ctx exec st tsf = some res ∧
        res.execCount = 2 ∧
        alookup res.st.contents (toJsName tsf) = some emptyRequire ∧
        (∀ v, exec emptyRequire (toJsName tsf) = .ok v → res.result = .ok none) ∧
        (∀ e2, exec emptyRequire (toJsName tsf) = .err e2 → res.result = .error e2)) ∧
    (∀ res2, requireHandler ctx exec st tsf = some res2 → res2.execCount ≤ 2) := by
  have hchar := requireHandler_not_new ctx exec st tsf c hc
  refine ⟨?_, ?_, ?_⟩
  · intro hp
    rw [hchar, hfail]
    simp [handleLoadErrorExc, hp]
  · intro hp
    rw [hchar, hfail]
    simp only [handleLoadErrorExc, hp, Bool.false_eq_true, if_false]
    cases hex2 : exec emptyRequire (toJsName tsf) with
    | ok v =>
      refine ⟨⟨.ok none,
        { st with contents := aset st.contents (toJsName tsf) emptyRequire }, 2, []⟩,
        rfl, rfl, alookup_aset_self _ _ _, fun _ _ => rfl, ?_⟩
      intro e2 h2
      exact ExecOutcome.noConfusion h2
    | err e2 =>
      refine ⟨⟨.error e2,
        { st with contents := aset st.contents (toJsName tsf) emptyRequire }, 2, []⟩,
        rfl, rfl, alookup_aset_self _ _ _, ?_, ?_⟩
      · intro v hv
        exact ExecOutcome.noConfusion hv
      · intro e3 h3
        cases h3
        rfl
  · intro res2 hres
    rw [hchar] at hres
    split at hres
    · cases hres; simp
    · split at hres
      · cases hres; simp
      · split at hres
        · cases hres; simp
        · cases hres; simp

def ctxC7 : Ctx :=
  { watch := false, prod := false, cwd := "/app",
    readFile := fun _ => "x", shash := fun s => s.length,
    transp := fun cc _ => ⟨cc, []⟩, invalid := fun _ => false }

def stC7 : CompilerState :=
  { files := [("a.ts", 0)], contents := [("a.js", "boom")], hashes := [],
    snaphost := [], sourceMaps := [], modules := [], rootFiles := ["a.ts"],
    requireCache := [], nextProxyId := 0 }

def execC7 : String → String → ExecOutcome := fun content _ =>
  if content = "boom" then .err 13 else .ok (Val.obj 1)

theorem c7_exec_retry_policy_witness :
    alookup stC7.contents (toJsName "a.ts") = some "boom" ∧
    execC7 "boom" (toJsName "a.ts") = .err 13 ∧
    ctxC7.prod = false ∧
    ∃ res, requireHandler ctxC7 execC7 stC7 "a.ts" = some res ∧
      res.execCount = 2 ∧
      alookup res.st.contents (toJsName "a.ts") = some emptyRequire ∧
      (∀ v, execC7 emptyRequire (toJsName "a.ts") = .ok v → res.result = .ok none) ∧
      (∀ e2, execC7 emptyRequire (toJsName "a.ts") = .err e2 → res.result = .error e2) :=
  ⟨by decide, by decide, rfl,
    (c7_exec_retry_policy ctxC7 execC7 stC7 "a.ts" "boom" 13
      (by decide) (by decide)).2.1 rfl⟩

/-! Claim C8: which operations remove per-path registry state (corrected). -/

theorem unload_sourceMaps (st : CompilerState) (f : String) :
    (unload st f).sourceMaps = st.sourceMaps := rfl

theorem emitFile_sourceMaps_eq (ctx : Ctx) (st : CompilerState) (f : String) (r : EmitRes)
    (h : emitFile ctx st f = some r) : r.st.sourceMaps = st.sourceMaps := by
  rw [emitFile_eq] at h
  split at h
  · cases h; rfl
  · split at h
    · split at h
      · cases h
      · cases h
        split
        · exact unload_sourceMaps _ _
        · rfl
    · cases h; rfl

/-- Closed form of `requireHandler` when the compiled content is absent (the
file is new and goes through registration and `emitFile` first). -/
theorem requireHandler_new (ctx : Ctx) (exec : String → String → ExecOutcome)
    (st : CompilerState) (tsf : String)
    (hc : alookup st.contents (toJsName tsf) = none) :
    requireHandler ctx exec st tsf =
      match emitFile ctx { st with rootFiles := st.rootFiles ++ [tsf],
                                   files := aset st.files tsf 0 } tsf with
      | none => none
      | some r =>
        match alookup r.st.contents (toJsName tsf) with
        | none => none
        | some content =>
          match exec content (toJsName tsf) with
          | .ok v => some ⟨.ok (some v), r.st, 1, [("required-after", tsf)]⟩
          | .err e =>
            match handleLoadErrorExc ctx.prod with
            | none => some ⟨.error e, r.st, 1, []⟩
            | some _ =>
              match exec emptyRequire (toJsName tsf) with
              | .ok _ => some ⟨.ok none,
                  { r.st with contents := aset r.st.contents (toJsName tsf) emptyRequire },
                  2, []⟩
              | .err e2 => some ⟨.error e2,
                  { r.st with contents := aset r.st.contents (toJsName tsf) emptyRequire },
                  2, []⟩ := by
  unfold requireHandler
  simp only [hc, Option.isNone_none, if_pos]
  cases he : emitFile ctx { st with rootFiles := st.rootFiles ++ [tsf],
                                    files := aset st.files tsf 0 } tsf with
  | none => simp [he]
  | some r => simp [he, Option.map]

/-- C8 (amended): the version map, the compiled-content map and the
source-map store are never shrunk by `unload`, `emitFile`,
`watcherListener` or `requireHandler` — entries there are removed only by
a full reset, which clears every cache wholesale.  The hash and snapshot
(and the `require.cache` entry), by contrast, are NOT preserved in
general: `unload` drops them, and `unload` runs not only on a `removed`
event but also, via mark-for-reload, whenever a file with version > 0 is
re-emitted — which is what refutes the claim as stated. -/
theorem c8_registry_state_removal (ctx : Ctx) (st : CompilerState) (f g k : String) :
    ((unload st f).files = st.files ∧ (unload st f).contents = st.contents ∧
      (unload st f).sourceMaps = st.sourceMaps) ∧
    (∀ r, emitFile ctx st f = some r →
      r.st.files = st.files ∧ r.st.sourceMaps = st.sourceMaps ∧
      ((alookup st.contents k).isSome → (alookup r.st.contents k).isSome)) ∧
    (∀ ev st2 evs, watcherListener ctx st ev f = some (st2, evs) →
      ((alookup st.files g).isSome → (alookup st2.files g).isSome) ∧
      ((alookup st.contents k).isSome → (alookup st2.contents k).isSome) ∧
      st2.sourceMaps = st.sourceMaps) ∧
    (∀ exec res, requireHandler ctx exec st f = some res →
      ((alookup st.files g).isSome → (alookup res.st.files g).isSome) ∧
      ((alookup st.contents k).isSome → (alookup res.st.contents k).isSome) ∧
      res.st.sourceMaps = st.sourceMaps) := by
  refine ⟨⟨unload_files _ _, unload_contents _ _, unload_sourceMaps _ _⟩, ?_, ?_, ?_⟩
  · intro r hr
    exact ⟨emitFile_files_eq _ _ _ _ hr, emitFile_sourceMaps_eq _ _ _ _ hr,
      emitFile_contents_persist _ _ _ _ hr k⟩
  · intro ev st2 evs hw
    by_cases hinv : ctx.invalid f = true
    · unfold watcherListener at hw
      rw [if_pos hinv] at hw
      simp only [Option.some.injEq, Prod.mk.injEq] at hw
      obtain ⟨h2, _⟩ := hw
      rw [← h2]
      exact ⟨id, id, rfl⟩
    · have hinv2 : ctx.invalid f = false := by
        cases hcc : ctx.invalid f
        · rfl
        · exact absurd hcc hinv
      cases ev with
      | added =>
        unfold watcherListener at hw
        rw [hinv2] at hw
        simp only [Bool.false_eq_true, if_false] at hw
        split at hw
        · exact Option.noConfusion hw
        · rename_i r heq
          simp only [Option.some.injEq, Prod.mk.injEq] at hw
          obtain ⟨h2, _⟩ := hw
          rw [← h2]
          refine ⟨?_, ?_, ?_⟩
          · intro hg
            rw [emitFile_files_eq _ _ _ _ heq]
            exact alookup_isSome_aset _ _ _ _ hg
          · intro hk
            exact emitFile_contents_persist _ _ _ _ heq k hk
          · rw [emitFile_sourceMaps_eq _ _ _ _ heq]
      | changed =>
        unfold watcherListener at hw
        rw [hinv2] at hw
        simp only [Bool.false_eq_true, if_false] at hw
        split at hw
        · rename_i v hv
          split at hw
          · exact Option.noConfusion hw
          · rename_i r heq
            simp only [Option.some.injEq, Prod.mk.injEq] at hw
            obtain ⟨h2, _⟩ := hw
            rw [← h2]
            refine ⟨?_, ?_, ?_⟩
            · intro hg
              rw [emitFile_files_eq _ _ _ _ heq]
              exact alookup_isSome_aset _ _ _ _ hg
            · intro hk
              exact emitFile_contents_persist _ _ _ _ heq k hk
            · rw [emitFile_sourceMaps_eq _ _ _ _ heq]
        · split at hw
          · exact Option.noConfusion hw
          · rename_i r heq
            simp only [Option.some.injEq, Prod.mk.injEq] at hw
            obtain ⟨h2, _⟩ := hw
            rw [← h2]
            refine ⟨?_, ?_, ?_⟩
            · intro hg
              rw [emitFile_files_eq _ _ _ _ heq]
              exact alookup_isSome_aset _ _ _ _ hg
            · intro hk
              exact emitFile_contents_persist _ _ _ _ heq k hk
            · rw [emitFile_sourceMaps_eq _ _ _ _ heq]
      | removed =>
        unfold watcherListener at hw
        rw [hinv2] at hw
        simp only [Bool.false_eq_true, if_false, Option.some.injEq, Prod.mk.injEq] at hw
        obtain ⟨h2, _⟩ := hw
        rw [← h2]
        rw [unload_files, unload_contents]
        exact ⟨id, id, unload_sourceMaps _ _⟩
  · intro exec res hres
    cases hc : alookup st.contents (toJsName f) with
    | some c =>
      rw [requireHandler_not_new ctx exec st f c hc] at hres
      split at hres
      · cases hres; exact ⟨id, id, rfl⟩
      · split at hres
        · cases hres; exact ⟨id, id, rfl⟩
        · split at hres
          · cases hres
            exact ⟨id, fun hk => alookup_isSome_aset _ _ _ _ hk, rfl⟩
          · cases hres
            exact ⟨id, fun hk => alookup_isSome_aset _ _ _ _ hk, rfl⟩
    | none =>
      rw [requireHandler_new ctx exec st f hc] at hres
      split at hres
      · exact Option.noConfusion hres
      · rename_i r heq
        have hfiles := emitFile_files_eq _ _ _ _ heq
        have hsm := emitFile_sourceMaps_eq _ _ _ _ heq
        have hcont := fun hk => emitFile_contents_persist _ _ _ _ heq k hk
        split at hres
        · exact Option.noConfusion hres
        · split at hres
          · cases hres
            refine ⟨?_, hcont, hsm⟩
            intro hg
            rw [hfiles]
            exact alookup_isSome_aset _ _ _ _ hg
          · split at hres
            · cases hres
              refine ⟨?_, hcont, hsm⟩
              intro hg
              rw [hfiles]
              exact alookup_isSome_aset _ _ _ _ hg
            · split at hres
              · cases hres
                refine ⟨?_, fun hk => alookup_isSome_aset _ _ _ _ (hcont hk), hsm⟩
                intro hg
                rw [hfiles]
                exact alookup_isSome_aset _ _ _ _ hg
              · cases hres
                refine ⟨?_, fun hk => alookup_isSome_aset _ _ _ _ (hcont hk), hsm⟩
                intro hg
                rw [hfiles]
                exact alookup_isSome_aset _ _ _ _ hg

def ctxC8 : Ctx :=
  { watch := true, prod := false, cwd := "/app",
    readFile := fun _ => "x", shash := fun s => s.length,
    transp := fun c _ => ⟨c, []⟩, invalid := fun _ => false }

def stC8 : CompilerState :=
  { files := [("a.ts", 1)], contents := [("a.js", "old")], hashes := [("a.ts", 999)],
    snaphost := ["a.ts"], sourceMaps := [], modules := [], rootFiles := ["a.ts"],
    requireCache := [], nextProxyId := 0 }

def stC8x : CompilerState :=
  { files := [("a.ts", 2)], contents := [("a.js", "x")], hashes := [],
    snaphost := [], sourceMaps := [], modules := [], rootFiles := ["a.ts"],
    requireCache := [], nextProxyId := 0 }

/-- C8 counterexample: a plain `changed` event (neither a full reset nor a
`removed` event) deletes the file's recorded hash and cached snapshot:
the event drops the snapshot directly, and the recompile of the
version-1 file runs mark-for-reload, which erases the hash. -/
theorem c8_registry_state_removal_counterexample :
    alookup stC8.hashes "a.ts" = some 999 ∧ "a.ts" ∈ stC8.snaphost ∧
    watcherListener ctxC8 stC8 .changed "a.ts" = some (stC8x, [("changed", "a.ts")]) ∧
    alookup stC8x.hashes "a.ts" = none ∧ "a.ts" ∉ stC8x.snaphost := by
  decide

def stC8y : CompilerState :=
  { files := [("a.ts", 1)], contents := [("a.js", "x")], hashes := [],
    snaphost := [], sourceMaps := [], modules := [], rootFiles := ["a.ts"],
    requireCache := [], nextProxyId := 0 }

theorem c8_registry_state_removal_witness :
    (∀ r, emitFile ctxC8 stC8 "a.ts" = some r →
      r.st.files = stC8.files ∧ r.st.sourceMaps = stC8.sourceMaps ∧
      ((alookup stC8.contents "a.js").isSome → (alookup r.st.contents "a.js").isSome)) ∧
    emitFile ctxC8 stC8 "a.ts" = some ⟨true, true, stC8y⟩ ∧
    (alookup stC8.contents "a.js").isSome ∧ (alookup stC8y.contents "a.js").isSome :=
  ⟨(c8_registry_state_removal ctxC8 stC8 "a.ts" "a.ts" "a.js").2.1,
    by decide, by decide, by decide⟩

/-! Claim C9: transformer pipeline resolution. -/

/-- Number of descriptors without an explicit priority (these consume the
auto-increment counter). -/
def countNone (ds : List TDesc) : Nat :=
  (ds.filter (fun d => d.priority.isNone)).length

theorem countNone_cons (d : TDesc) (l : List TDesc) :
    countNone (d :: l) = (if d.priority.isNone then 1 else 0) + countNone l := by
  by_cases h : d.priority.isNone
  · simp [countNone, List.filter, h, Nat.add_comm]
  · simp [countNone, List.filter, h]

theorem assignAux_length (ds : List TDesc) (i : Nat) :
    (assignPrioritiesAux ds i).length = ds.length := by
  induction ds generalizing i with
  | nil => rfl
  | cons b t ih =>
    cases hb : b.priority with
    | none => simp [assignPrioritiesAux, hb, ih]
    | some v => simp [assignPrioritiesAux, hb, ih]

theorem assignAux_get_none (ds : List TDesc) (i j : Nat) (dj : TDesc)
    (hj : ds.get? j = some dj) (hn : dj.priority = none) :
    ∃ dOut, (assignPrioritiesAux ds i).get? j = some dOut ∧
      dOut.priority = some (Int.ofNat (i + 1 + countNone (ds.take j))) := by
  induction ds generalizing i j with
  | nil => cases hj
  | cons b t ih =>
    cases j with
    | zero =>
      rw [List.get?] at hj
      cases hj
      refine ⟨{ dj with priority := some (Int.ofNat (i + 1)),
                        name := some (dj.name.getD dj.key) }, ?_, ?_⟩
      · simp [assignPrioritiesAux, hn, List.get?]
      · simp [List.take, countNone]
    | succ j =>
      rw [List.get?] at hj
      cases hb : b.priority with
      | none =>
        obtain ⟨dOut, hOut, hpri⟩ := ih (i + 1) j hj
        refine ⟨dOut, ?_, ?_⟩
        · simp only [assignPrioritiesAux, hb, List.get?]
          exact hOut
        · rw [hpri]
          simp only [List.take, countNone_cons, hb, Option.isNone_none, if_pos]
          congr 2
          omega
      | some v =>
        obtain ⟨dOut, hOut, hpri⟩ := ih i j hj
        refine ⟨dOut, ?_, ?_⟩
        · simp only [assignPrioritiesAux, hb, List.get?]
          exact hOut
        · rw [hpri]
          simp [List.take, countNone_cons, hb]

theorem assignAux_get_some (ds : List TDesc) (i j : Nat) (dj : TDesc) (v : Int)
    (hj : ds.get? j = some dj) (hs : dj.priority = some v) :
    ∃ dOut, (assignPrioritiesAux ds i).get? j = some dOut ∧
      dOut.priority = some v := by
  induction ds generalizing i j with
  | nil => cases hj
  | cons b t ih =>
    cases j with
    | zero =>
      rw [List.get?] at hj
      cases hj
      refine ⟨{ dj with name := some (dj.name.getD dj.key) }, ?_, hs⟩
      simp [assignPrioritiesAux, hs, List.get?]
    | succ j =>
      rw [List.get?] at hj
      cases hb : b.priority with
      | none =>
        obtain ⟨dOut, hOut, hpri⟩ := ih (i + 1) j hj
        exact ⟨dOut, by simp only [assignPrioritiesAux, hb, List.get?]; exact hOut, hpri⟩
      | some w =>
        obtain ⟨dOut, hOut, hpri⟩ := ih i j hj
        exact ⟨dOut, by simp only [assignPrioritiesAux, hb, List.get?]; exact hOut, hpri⟩

theorem countNone_take_strict (ds : List TDesc) (j k : Nat) (dj : TDesc)
    (hjk : j < k) (hj : ds.get? j = some dj) (hn : dj.priority = none) :
    countNone (ds.take j) < countNone (ds.take k) := by
  induction ds generalizing j k with
  | nil => cases hj
  | cons b t ih =>
    cases j with
    | zero =>
      rw [List.get?] at hj
      cases hj
      cases k with
      | zero => exact absurd hjk (by simp)
      | succ k =>
        simp only [List.take, countNone_cons, hn, Option.isNone_none, if_pos]
        simp [countNone, List.take]
    | succ j =>
      cases k with
      | zero => exact absurd hjk (by simp)
      | succ k =>
        rw [List.get?] at hj
        have := ih j k (Nat.lt_of_succ_lt_succ hjk) hj
        simp only [List.take, countNone_cons]
        omega

theorem mem_sinsert (l : List TDesc) (d x : TDesc) :
    x ∈ sinsert l d ↔ x ∈ l ∨ x = d := by
  induction l with
  | nil => simp [sinsert]
  | cons b t ih =>
    by_cases h : prio b ≤ prio d
    · simp only [sinsert, if_pos h, List.mem_cons, ih]
      tauto
    · simp only [sinsert, if_neg h, List.mem_cons]
      tauto

theorem sinsert_sorted (l : List TDesc) (d : TDesc)
    (hl : l.Pairwise (fun a b => prio a ≤ prio b)) :
    (sinsert l d).Pairwise (fun a b => prio a ≤ prio b) := by
  induction l with
  | nil => simp [sinsert]
  | cons b t ih =>
    rcases List.pairwise_cons.mp hl with ⟨hb, ht⟩
    by_cases h : prio b ≤ prio d
    · simp only [sinsert, if_pos h]
      refine List.pairwise_cons.mpr ⟨?_, ih ht⟩
      intro x hx
      rcases (mem_sinsert t d x).mp hx with hx | rfl
      · exact hb x hx
      · exact h
    · simp only [sinsert, if_neg h]
      have hd : prio d ≤ prio b := le_of_lt (lt_of_not_le h)
      refine List.pairwise_cons.mpr ⟨?_, hl⟩
      intro x hx
      rcases List.mem_cons.mp hx with rfl | hx
      · exact hd
      · exact le_trans hd (hb x hx)

theorem filter_sinsert (l : List TDesc) (d : TDesc) (p : Int)
    (hl : l.Pairwise (fun a b => prio a ≤ prio b)) :
    (sinsert l d).filter (fun x => decide (prio x = p)) =
      l.filter (fun x => decide (prio x = p)) ++
        (if prio d = p then [d] else []) := by
  induction l with
  | nil => by_cases h : prio d = p <;> simp [sinsert, h]
  | cons b t ih =>
    rcases List.pairwise_cons.mp hl with ⟨hb, ht⟩
    by_cases h : prio b ≤ prio d
    · have hrw : sinsert (b :: t) d = b :: sinsert t d := by
        simp [sinsert, h]
      rw [hrw, List.filter_cons, List.filter_cons]
      by_cases hqb : prio b = p
      · simp [hqb, ih ht]
      · simp [hqb, ih ht]
    · have hrw : sinsert (b :: t) d = d :: b :: t := by
        simp [sinsert, h]
      have hdb : prio d < prio b := lt_of_not_le h
      by_cases hqd : prio d = p
      · have hne : ∀ x ∈ b :: t, ¬ prio x = p := by
          intro x hx hc
          rcases List.mem_cons.mp hx with rfl | hx
          · have hbd : prio x = prio d := hc.trans hqd.symm
            rw [hbd] at hdb
            exact lt_irrefl _ hdb
          · have hdx : prio d < prio x := lt_of_lt_of_le hdb (hb x hx)
            rw [hc, ← hqd] at hdx
            exact lt_irrefl _ hdx
        have hnil : (b :: t).filter (fun x => decide (prio x = p)) = [] := by
          rw [List.filter_eq_nil_iff]
          intro a ha
          simpa using hne a ha
        rw [hrw, List.filter_cons, hnil]
        simp [hqd]
      · rw [hrw, List.filter_cons]
        simp [hqd]

theorem ssort_foldl (ds : List TDesc) (acc : List TDesc)
    (hacc : acc.Pairwise (fun a b => prio a ≤ prio b)) :
    (ds.foldl sinsert acc).Pairwise (fun a b => prio a ≤ prio b) ∧
    ∀ p, (ds.foldl sinsert acc).filter (fun x => decide (prio x = p)) =
      acc.filter (fun x => decide (prio x = p)) ++
        ds.filter (fun x => decide (prio x = p)) := by
  induction ds generalizing acc with
  | nil => exact ⟨hacc, fun p => by simp⟩
  | cons d t ih =>
    obtain ⟨hp, hf⟩ := ih (sinsert acc d) (sinsert_sorted acc d hacc)
    refine ⟨hp, fun p => ?_⟩
    rw [List.foldl_cons, hf p, filter_sinsert acc d p hacc]
    by_cases hqd : prio d = p
    · simp [List.filter_cons, hqd, List.append_assoc]
    · simp [List.filter_cons, hqd]

theorem ssort_sorted (l : List TDesc) :
    (ssort l).Pairwise (fun a b => prio a ≤ prio b) :=
  (ssort_foldl l [] (by simp)).1

theorem ssort_filter (l : List TDesc) (p : Int) :
    (ssort l).filter (fun x => decide (prio x = p)) =
      l.filter (fun x => decide (prio x = p)) := by
  have := (ssort_foldl l [] (by simp)).2 p
  simpa using this

theorem assignAux_isSome (ds : List TDesc) (i : Nat) :
    ∀ d ∈ assignPrioritiesAux ds i, d.priority.isSome ∧ d.name.isSome := by
  induction ds generalizing i with
  | nil => intro d hd; cases hd
  | cons b t ih =>
    intro d hd
    cases hb : b.priority with
    | none =>
      simp only [assignPrioritiesAux, hb] at hd
      rcases List.mem_cons.mp hd with rfl | hd
      · exact ⟨rfl, rfl⟩
      · exact ih (i + 1) d hd
    | some v =>
      simp only [assignPrioritiesAux, hb] at hd
      rcases List.mem_cons.mp hd with rfl | hd
      · exact ⟨by simp [hb], rfl⟩
      · exact ih i d hd

theorem assignAux_fixed (l : List TDesc) (i : Nat)
    (h : ∀ d ∈ l, d.priority.isSome ∧ d.name.isSome) :
    assignPrioritiesAux l i = l := by
  induction l generalizing i with
  | nil => rfl
  | cons b t ih =>
    obtain ⟨hp, hn⟩ := h b (List.mem_cons_self b t)
    obtain ⟨v, hv⟩ := Option.isSome_iff_exists.mp hp
    obtain ⟨n, hn2⟩ := Option.isSome_iff_exists.mp hn
    have ht : assignPrioritiesAux t i = t :=
      ih i (fun d hd => h d (List.mem_cons_of_mem b hd))
    simp only [assignPrioritiesAux, hv, ht, hn2, Option.getD_some]
    rw [← hn2, ← hv]

theorem assignPriorities_idem (ds : List TDesc) :
    assignPriorities (assignPriorities ds) = assignPriorities ds :=
  assignAux_fixed _ 2 (assignAux_isSome ds 2)

/-- C9: after priority assignment, each phase bucket sorted by `ssort` is in
ascending priority order; equal-priority descriptors keep their discovery
order (the filtered subsequence at any priority is unchanged by the sort);
a descriptor without an explicit priority at discovery position `j`
receives the auto-incremented priority `3 + countNone (ds.take j)` —
strictly above the reserved range `≤ 2` and strictly increasing in
discovery order — while explicit priorities are kept; and re-resolving the
already-assigned descriptor list yields exactly the same phase lists. -/
theorem c9_transformer_pipeline (ds : List TDesc) :
    (∀ ph, (ssort (phaseList (assignPriorities ds) ph)).Pairwise
      (fun a b => prio a ≤ prio b)) ∧
    (∀ ph p, (ssort (phaseList (assignPriorities ds) ph)).filter
        (fun x => decide (prio x = p)) =
      (phaseList (assignPriorities ds) ph).filter (fun x => decide (prio x = p))) ∧
    (∀ j dj, ds.get? j = some dj →
      (dj.priority = none →
        (∃ dOut, (assignPriorities ds).get? j = some dOut ∧
          dOut.priority = some (Int.ofNat (3 + countNone (ds.take j)))) ∧
        (2 : Int) < Int.ofNat (3 + countNone (ds.take j))) ∧
      (∀ v, dj.priority = some v →
        ∃ dOut, (assignPriorities ds).get? j = some dOut ∧ dOut.priority = some v)) ∧
    (∀ j k dj, j < k → ds.get? j = some dj → dj.priority = none →
      Int.ofNat (3 + countNone (ds.take j)) < Int.ofNat (3 + countNone (ds.take k))) ∧
    resolveTransformers (assignPriorities ds) = resolveTransformers ds := by
  refine ⟨fun ph => ssort_sorted _, fun ph p => ssort_filter _ p, ?_, ?_, ?_⟩
  · intro j dj hj
    constructor
    · intro hn
      refine ⟨?_, ?_⟩
      · have := assignAux_get_none ds 2 j dj hj hn
        simpa using this
      · simp only [Int.ofNat_eq_natCast]
        omega
    · intro v hs
      exact assignAux_get_some ds 2 j dj v hj hs
  · intro j k dj hjk hj hn
    have := countNone_take_strict ds j k dj hjk hj hn
    simp only [Int.ofNat_eq_natCast]
    omega
  · unfold resolveTransformers
    rw [assignPriorities_idem]

def dsC9 : List TDesc :=
  [⟨"before", none, none, "k1", 101⟩,
   ⟨"before", some 1, some "n2", "k2", 102⟩,
   ⟨"after", none, none, "k3", 103⟩,
   ⟨"before", some 1, none, "k4", 104⟩]

theorem c9_transformer_pipeline_witness :
    (ssort (phaseList (assignPriorities dsC9) "before")).Pairwise
      (fun a b => prio a ≤ prio b) ∧
    ((ssort (phaseList (assignPriorities dsC9) "before")).filter
        (fun x => decide (prio x = 1)) =
      (phaseList (assignPriorities dsC9) "before").filter
        (fun x => decide (prio x = 1))) ∧
    dsC9.get? 0 = some ⟨"before", none, none, "k1", 101⟩ ∧
    ((⟨"before", none, none, "k1", 101⟩ : TDesc).priority = none →
      (∃ dOut, (assignPriorities dsC9).get? 0 = some dOut ∧
        dOut.priority = some (Int.ofNat (3 + countNone (dsC9.take 0)))) ∧
      (2 : Int) < Int.ofNat (3 + countNone (dsC9.take 0))) ∧
    resolveTransformers (assignPriorities dsC9) = resolveTransformers dsC9 :=
  ⟨(c9_transformer_pipeline dsC9).1 "before",
   (c9_transformer_pipeline dsC9).2.1 "before" 1,
   by decide,
   ((c9_transformer_pipeline dsC9).2.2.1 0 ⟨"before", none, none, "k1", 101⟩
     (by decide)).1,
   (c9_transformer_pipeline dsC9).2.2.2.2⟩

end Travetto
